import Mathlib

/-!
NCR internal interface (`ncr_int.h`): a verification development.

The header `ncr_int.h` carries the data model of the NCR layer of
cryptodev-linux (the three managed object kinds and the per-descriptor
lists), the prototypes of the operations on them, and two inline helpers that
translate between key flags and data flags.

The inline helpers and the structures are embedded from the header.  The
operations that the header only declares are modelled from the design
document; every such definition says so in its doc comment.
-/

namespace Ncr

/-! ## Machine integers -/

/-- Number of values of a C `unsigned int` on the supported targets. -/
def UINT_SIZE : Nat := 2 ^ 32

/-! ## Flag translation (`ncr_int.h`, "misc helper macros") -/

/-- Embedding of `key_flags_to_data`.  The two constants are defined in `ncr.h`
and are taken as parameters: `KEY_EXP` is `NCR_KEY_FLAG_EXPORTABLE` and
`DATA_EXP` is `NCR_DATA_FLAG_EXPORTABLE`. -/
def key_flags_to_data (KEY_EXP DATA_EXP : Nat) (key_flags : Nat) : Nat :=
  let flags : Nat := 0
  if (key_flags &&& KEY_EXP) % UINT_SIZE ≠ 0 then
    (flags ||| DATA_EXP) % UINT_SIZE
  else
    flags

/-- Embedding of `data_flags_to_key`, with the same two parameters as
`key_flags_to_data`. -/
def data_flags_to_key (KEY_EXP DATA_EXP : Nat) (data_flags : Nat) : Nat :=
  let flags : Nat := 0
  if (data_flags &&& DATA_EXP) % UINT_SIZE ≠ 0 then
    (flags ||| KEY_EXP) % UINT_SIZE
  else
    flags

/-! ## Data model (`ncr_int.h`, structures) -/

/-- Modelled from the spec: `ncr_key_type_t` is declared in `ncr.h`; the design
document gives the key types as secret, public and private. -/
inductive ncr_key_type_t where
  | NCR_KEY_TYPE_SECRET
  | NCR_KEY_TYPE_PUBLIC
  | NCR_KEY_TYPE_PRIVATE
deriving DecidableEq, Repr

/-- Modelled from the spec: `ncr_crypto_op_t` is declared in `ncr.h`; the design
document lists the session operations. -/
inductive ncr_crypto_op_t where
  | NCR_OP_ENCRYPT
  | NCR_OP_DECRYPT
  | NCR_OP_SIGN
  | NCR_OP_VERIFY
  | NCR_OP_DIGEST
  | NCR_OP_DERIVE
deriving DecidableEq, Repr

/-- Modelled from the spec: the error kinds of the design document (section 7);
the C prototypes return them as a negative `int`. -/
inductive ncr_error where
  | NotFound
  | PermissionDenied
  | Busy
  | LimitExceeded
  | OutOfBounds
  | InvalidKeyData
  | InvalidFormat
  | AlgorithmMismatch
  | NotExportable
  | IntegrityError
  | InvalidState
deriving DecidableEq, Repr

/-- Embedding of `struct algo_properties_st`; `algo` is the `ncr_algorithm_t`
identifier and the one-bit fields are booleans. -/
structure algo_properties_st where
  algo : Nat
  kstr : String
  needs_iv : Bool
  is_hmac : Bool
  can_sign : Bool
  can_digest : Bool
  can_encrypt : Bool
  is_symmetric : Bool
  is_pk : Bool
  digest_size : Int
  key_type : ncr_key_type_t
deriving DecidableEq, Repr

/-- Embedding of `struct data_item_st` (the list linkage is the position in the
registry list); `data` is the allocated buffer, one list element per byte. -/
structure data_item_st where
  data : List Nat
  data_size : Nat
  max_data_size : Nat
  flags : Nat
  refcnt : Int
  uid : Nat
  pid : Nat
  desc : Nat
deriving DecidableEq, Repr

/-- Embedding of the union `key` of `struct key_item_st`: either the `secret`
member (the byte array and its used size) or the `pk` member.  `rsa_key` and
`dsa_key` are declared outside `ncr_int.h`; the asymmetric parameter set is
represented by its packed bytes. -/
inductive key_union where
  | secret (data : List Nat) (size : Nat)
  | pk (params : List Nat)
deriving DecidableEq, Repr

/-- Embedding of `struct key_item_st`; `algorithm` is a pointer that may be NULL
(`none`), `key_id` is the fixed array and `key_id_size` its used length. -/
structure key_item_st where
  type : ncr_key_type_t
  flags : Nat
  algorithm : Option algo_properties_st
  key_id : List Nat
  key_id_size : Nat
  key : key_union
  refcnt : Int
  writer : Int
  uid : Nat
  pid : Nat
  desc : Nat
deriving DecidableEq, Repr

/-- Embedding of `struct session_item_st`.  The three transform contexts
(`cipher`, `pk`, `hash`) have types declared outside `ncr_int.h`; they are
represented by one opaque context value `ctx`.  `key` is the descriptor of the
bound key item. -/
structure session_item_st where
  algorithm : algo_properties_st
  op : ncr_crypto_op_t
  ctx : List Nat
  key : Nat
  refcnt : Int
  desc : Nat
deriving DecidableEq, Repr

/-- Embedding of `struct list_sem_st`: the list of items (the semaphore only
serialises structural access and has no sequential content). -/
structure list_sem_st (α : Type) where
  list : List α

/-- Embedding of `struct ncr_lists`. -/
structure ncr_lists where
  data : list_sem_st data_item_st
  key : list_sem_st key_item_st
  sessions : list_sem_st session_item_st

/-- Embedding of `limits_type_t`. -/
inductive limits_type_t where
  | LIMIT_TYPE_KEY
  | LIMIT_TYPE_DATA
deriving DecidableEq, Repr

/-! ## Data items (`ncr_data_set`, `ncr_data_get`) -/

/-- Modelled from the spec: `ncr_data_item_get` is only declared in
`ncr_int.h`; it looks a data descriptor up in the registry list. -/
def ncr_data_item_get (lst : list_sem_st data_item_st) (desc : Nat) : Option data_item_st :=
  lst.list.find? (fun item => item.desc == desc)

/-- Modelled from the spec: copy `bytes` into the buffer `buf` starting at
`offset` (the copy that `set` performs once the bounds check has passed). -/
def buffer_write (buf : List Nat) (offset : Nat) (bytes : List Nat) : List Nat :=
  buf.take offset ++ bytes ++ buf.drop (offset + bytes.length)

/-- Modelled from the spec: `ncr_data_set` is only declared in `ncr_int.h`.
Section 4.3: `set(descriptor, bytes, offset)` fails with `OutOfBounds` if
`offset+len(bytes) > capacity`; an unknown descriptor is `NotFound`.  On success
the bytes are stored and the used size grows to cover them.  The result is the
outcome together with the registry after the call. -/
def ncr_data_set (lst : list_sem_st data_item_st) (desc offset : Nat) (bytes : List Nat) :
    Except ncr_error Unit × list_sem_st data_item_st :=
  match ncr_data_item_get lst desc with
  | none => (.error .NotFound, lst)
  | some item =>
    if offset + bytes.length > item.max_data_size then
      (.error .OutOfBounds, lst)
    else
      (.ok (), { lst with list := lst.list.map (fun it =>
        if it.desc == desc then
          { it with data := buffer_write it.data offset bytes,
                    data_size := max it.data_size (offset + bytes.length) }
        else it) })

/-- Modelled from the spec: `ncr_data_get` is only declared in `ncr_int.h`.
Section 4.3: `get(descriptor, offset, len) -> bytes` fails with `OutOfBounds`
in the same way as `set`; it never changes the registry. -/
def ncr_data_get (lst : list_sem_st data_item_st) (desc offset len : Nat) :
    Except ncr_error (List Nat) × list_sem_st data_item_st :=
  match ncr_data_item_get lst desc with
  | none => (.error .NotFound, lst)
  | some item =>
    if offset + len > item.max_data_size then
      (.error .OutOfBounds, lst)
    else
      (.ok ((item.data.drop offset).take len), lst)

/-! ## Resource limiter (`ncr_limits_add_and_check`, `ncr_limits_remove`) -/

/-- Modelled from the spec: one limiter entry, the live-object count of one
(owner user, owner process, object kind); the count is a C `int`. -/
structure limits_item_st where
  uid : Nat
  pid : Nat
  type : limits_type_t
  cnt : Int
deriving DecidableEq, Repr

/-- Modelled from the spec: whether a limiter entry belongs to the given
(uid, pid, kind). -/
def limits_match (uid pid : Nat) (type : limits_type_t) (e : limits_item_st) : Bool :=
  e.uid == uid && e.pid == pid && e.type == type

/-- Modelled from the spec: the live-object count recorded for (uid, pid, kind);
an owner without an entry has count 0. -/
def limits_count (st : List limits_item_st) (uid pid : Nat) (type : limits_type_t) : Int :=
  match st.find? (limits_match uid pid type) with
  | some e => e.cnt
  | none => 0

/-- Modelled from the spec: `ncr_limits_add_and_check` is only declared in
`ncr_int.h`.  Section 4.2: `check_and_reserve(owner, kind) -> Ok | LimitExceeded`,
a compare-and-increment against the ceiling configured for the kind
(`ceiling`).  The result is the outcome and the limiter state after the call. -/
def ncr_limits_add_and_check (ceiling : limits_type_t → Nat) (st : List limits_item_st)
    (uid pid : Nat) (type : limits_type_t) : Except ncr_error Unit × List limits_item_st :=
  match st with
  | [] =>
    if (0 : Int) < ceiling type then
      (.ok (), [{ uid := uid, pid := pid, type := type, cnt := 1 }])
    else
      (.error .LimitExceeded, [])
  | e :: rest =>
    if limits_match uid pid type e then
      if e.cnt < ceiling type then
        (.ok (), { e with cnt := e.cnt + 1 } :: rest)
      else
        (.error .LimitExceeded, e :: rest)
    else
      ((ncr_limits_add_and_check ceiling rest uid pid type).1,
       e :: (ncr_limits_add_and_check ceiling rest uid pid type).2)

/-- Modelled from the spec: `ncr_limits_remove` is only declared in
`ncr_int.h`.  Sections 3 and 4.2: `release(owner, kind)` decrements the count
and the entry is removed when the count returns to zero. -/
def ncr_limits_remove (st : List limits_item_st) (uid pid : Nat) (type : limits_type_t) :
    List limits_item_st :=
  match st with
  | [] => []
  | e :: rest =>
    if limits_match uid pid type e then
      if e.cnt - 1 = 0 then rest else { e with cnt := e.cnt - 1 } :: rest
    else
      e :: ncr_limits_remove rest uid pid type

/-- One call on the limiter: a creation (`ncr_limits_add_and_check`) or a
destruction (`ncr_limits_remove`). -/
inductive limits_call where
  | add (uid pid : Nat) (type : limits_type_t)
  | remove (uid pid : Nat) (type : limits_type_t)
deriving DecidableEq, Repr

/-- Limiter state after one call. -/
def limits_step (ceiling : limits_type_t → Nat) (st : List limits_item_st) :
    limits_call → List limits_item_st
  | .add uid pid type => (ncr_limits_add_and_check ceiling st uid pid type).2
  | .remove uid pid type => ncr_limits_remove st uid pid type

/-- Limiter state after a sequence of calls, starting from the empty limiter
that `ncr_limits_init` sets up. -/
def limits_run (ceiling : limits_type_t → Nat) (calls : List limits_call) : List limits_item_st :=
  calls.foldl (limits_step ceiling) []

/-- Every entry of the limiter holds a count between 1 and the ceiling of its
kind. -/
def limits_inv (ceiling : limits_type_t → Nat) (st : List limits_item_st) : Prop :=
  ∀ e ∈ st, 1 ≤ e.cnt ∧ e.cnt ≤ ceiling e.type

/-! ## Key item references (`ncr_key_item_get_read`, `ncr_key_item_get_write`,
`_ncr_key_item_put`) -/

/-- Modelled from the spec: look a key descriptor up in the registry list (the
search that the three key reference functions, only declared in `ncr_int.h`,
start with). -/
def key_item_find (lst : list_sem_st key_item_st) (desc : Nat) : Option key_item_st :=
  lst.list.find? (fun item => item.desc == desc)

/-- Modelled from the spec: store the new state of the item registered under
`desc`. -/
def key_item_store (lst : list_sem_st key_item_st) (desc : Nat) (item : key_item_st) :
    list_sem_st key_item_st :=
  { lst with list := lst.list.map (fun it => if it.desc == desc then item else it) }

/-- Modelled from the spec: the counter part of `ncr_key_item_get_read`.  A
lookup increments the reference count (section 3); a writer excludes all readers
(section 5), so a read is refused with `Busy` while the writer count is
non-zero. -/
def key_item_acquire_read (item : key_item_st) : Except ncr_error key_item_st :=
  if item.writer ≠ 0 then
    .error .Busy
  else
    .ok { item with refcnt := item.refcnt + 1 }

/-- Modelled from the spec: the counter part of `ncr_key_item_get_write`.
Section 4.4: `get_for_write` fails with `Busy` if any reader or writer reference
is already outstanding, enforced via the writer counter in addition to the
refcount.  The registry holds one reference of its own from creation until
deinit, so a reference count above 1 means an outstanding reference. -/
def key_item_acquire_write (item : key_item_st) : Except ncr_error key_item_st :=
  if item.refcnt > 1 then
    .error .Busy
  else if item.writer ≠ 0 then
    .error .Busy
  else
    .ok { item with writer := item.writer + 1, refcnt := item.refcnt + 1 }

/-- Modelled from the spec: the counter part of `_ncr_key_item_put`.  The
prototype takes only the item, so a release clears the writer gate whenever it
is set, and decrements the reference count. -/
def key_item_release (item : key_item_st) : key_item_st :=
  { item with writer := if item.writer > 0 then item.writer - 1 else item.writer,
              refcnt := item.refcnt - 1 }

/-- Modelled from the spec: `ncr_key_item_get_read` is only declared in
`ncr_int.h`.  Section 4.1: `get_for_read(descriptor)` gives a shared reference
or `NotFound`.  The result is the outcome and the registry after the call. -/
def ncr_key_item_get_read (lst : list_sem_st key_item_st) (desc : Nat) :
    Except ncr_error key_item_st × list_sem_st key_item_st :=
  match key_item_find lst desc with
  | none => (.error .NotFound, lst)
  | some item =>
    match key_item_acquire_read item with
    | .error e => (.error e, lst)
    | .ok item' => (.ok item', key_item_store lst desc item')

/-- Modelled from the spec: `ncr_key_item_get_write` is only declared in
`ncr_int.h`.  Section 4.1: `get_for_write(descriptor)` gives an exclusive
reference, `NotFound` or `Busy`. -/
def ncr_key_item_get_write (lst : list_sem_st key_item_st) (desc : Nat) :
    Except ncr_error key_item_st × list_sem_st key_item_st :=
  match key_item_find lst desc with
  | none => (.error .NotFound, lst)
  | some item =>
    match key_item_acquire_write item with
    | .error e => (.error e, lst)
    | .ok item' => (.ok item', key_item_store lst desc item')

/-- Modelled from the spec: `_ncr_key_item_put` is only declared in
`ncr_int.h`.  Section 4.1: `release(reference)` decrements the refcount and
destroys the item and removes it from the list at zero.  The item is named by
its descriptor. -/
def _ncr_key_item_put (lst : list_sem_st key_item_st) (desc : Nat) : list_sem_st key_item_st :=
  match key_item_find lst desc with
  | none => lst
  | some item =>
    if (key_item_release item).refcnt = 0 then
      { lst with list := lst.list.filter (fun it => !(it.desc == desc)) }
    else
      key_item_store lst desc (key_item_release item)

/-- A registry together with the number of read references and of write
references to one key that have been granted and not yet released. -/
structure key_access_st where
  lst : list_sem_st key_item_st
  readers : Nat
  writers : Nat

/-- One call concerning the key: a read request, a write request, the release of
a granted read reference, the release of a granted write reference. -/
inductive key_access_call where
  | get_read
  | get_write
  | put_read
  | put_write
deriving DecidableEq, Repr

/-- State after one call on the key registered under `desc`.  A release is
performed only by a holder of a reference of that mode. -/
def key_access_step (desc : Nat) (s : key_access_st) : key_access_call → key_access_st
  | .get_read =>
    match (ncr_key_item_get_read s.lst desc).1 with
    | .ok _ => { lst := (ncr_key_item_get_read s.lst desc).2,
                 readers := s.readers + 1, writers := s.writers }
    | .error _ => { s with lst := (ncr_key_item_get_read s.lst desc).2 }
  | .get_write =>
    match (ncr_key_item_get_write s.lst desc).1 with
    | .ok _ => { lst := (ncr_key_item_get_write s.lst desc).2,
                 readers := s.readers, writers := s.writers + 1 }
    | .error _ => { s with lst := (ncr_key_item_get_write s.lst desc).2 }
  | .put_read =>
    if s.readers > 0 then
      { lst := _ncr_key_item_put s.lst desc, readers := s.readers - 1, writers := s.writers }
    else s
  | .put_write =>
    if s.writers > 0 then
      { lst := _ncr_key_item_put s.lst desc, readers := s.readers, writers := s.writers - 1 }
    else s

/-- State after a sequence of calls on the key registered under `desc`,
starting with no reference granted. -/
def key_access_run (desc : Nat) (lst : list_sem_st key_item_st)
    (calls : List key_access_call) : key_access_st :=
  calls.foldl (key_access_step desc) { lst := lst, readers := 0, writers := 0 }

/-- The counters of the key registered under `desc` agree with the references
granted and not yet released. -/
def key_access_inv (desc : Nat) (s : key_access_st) : Prop :=
  ∃ item, key_item_find s.lst desc = some item ∧
    item.writer = s.writers ∧ item.refcnt = 1 + s.readers + s.writers ∧
    s.writers ≤ 1 ∧ (s.writers = 1 → s.readers = 0)

/-! ## Key storage (`key_to_storage_data`, `key_from_storage_data`) -/

/-- Modelled from the spec: the table behind `_ncr_algo_to_properties`, which is
only declared in `ncr_int.h`.  Section 3: an immutable lookup table keyed by
algorithm identifier; the table is a parameter. -/
def _ncr_algo_to_properties (table : List algo_properties_st) (algo : Nat) :
    Option algo_properties_st :=
  table.find? (fun p => p.algo == algo)

/-- Modelled from the spec: the `format_version` that the storage record
carries and that `storage_unwrap` recognises. -/
def STORAGE_FORMAT_VERSION : Nat := 1

/-- Modelled from the spec: the `key_type` field of the storage record. -/
def key_type_code : ncr_key_type_t → Nat
  | .NCR_KEY_TYPE_SECRET => 1
  | .NCR_KEY_TYPE_PUBLIC => 2
  | .NCR_KEY_TYPE_PRIVATE => 3

/-- Modelled from the spec: reading the `key_type` field back; an unknown code
does not match the record layout. -/
def key_type_of_code : Nat → Option ncr_key_type_t
  | 1 => some .NCR_KEY_TYPE_SECRET
  | 2 => some .NCR_KEY_TYPE_PUBLIC
  | 3 => some .NCR_KEY_TYPE_PRIVATE
  | _ => none

/-- The key material that a key item holds: the used bytes of the secret, or
the packed asymmetric parameters. -/
def key_union_material : key_union → List Nat
  | .secret data size => data.take size
  | .pk params => params

/-- The key material of a key item. -/
def key_material (key : key_item_st) : List Nat :=
  key_union_material key.key

/-- Modelled from the spec: the `algorithm_id` field of the storage record.  The
`algorithm` pointer of a key may be NULL, so the field is length-prefixed like
the other optional-length fields: `[0]` for no algorithm, `[1, id]` otherwise. -/
def storage_algorithm_field (algorithm : Option algo_properties_st) : List Nat :=
  match algorithm with
  | none => [0]
  | some a => [1, a.algo]

/-- Modelled from the spec: `key_to_storage_data` is only declared in
`ncr_int.h`.  Section 6: the record is `format_version, key_type, algorithm_id,
flags, key_id (length-prefixed), material (length-prefixed)`; each list element
is one field unit (a header field, or one byte of key id or material). -/
def key_to_storage_data (key : key_item_st) : Except ncr_error (List Nat) :=
  .ok (STORAGE_FORMAT_VERSION :: key_type_code key.type ::
        (storage_algorithm_field key.algorithm ++
          (key.flags :: key.key_id_size ::
            (key.key_id.take key.key_id_size ++
              ((key_material key).length :: key_material key)))))

/-- Modelled from the spec: read the `algorithm_id` field and resolve it in the
algorithm table; the result is the algorithm and the rest of the record. -/
def storage_parse_algorithm (table : List algo_properties_st) :
    List Nat → Option (Option algo_properties_st × List Nat)
  | 0 :: rest => some (none, rest)
  | 1 :: algo :: rest =>
    match _ncr_algo_to_properties table algo with
    | some a => some (some a, rest)
    | none => none
  | _ => none

/-- Modelled from the spec: rebuild the `key` union from the material of a
record.  A secret key gets the `secret` member, which must fit the array of
`NCR_CIPHER_MAX_KEY_LEN` bytes (`max_key_len`); the other key types get the
`pk` member. -/
def storage_restore_material (max_key_len : Nat) (type : ncr_key_type_t)
    (material : List Nat) : Option key_union :=
  if type = .NCR_KEY_TYPE_SECRET then
    if material.length > max_key_len then none
    else some (.secret (material ++ List.replicate (max_key_len - material.length) 0)
                material.length)
  else
    some (.pk material)

/-- Modelled from the spec: `key_from_storage_data` is only declared in
`ncr_int.h`.  It fills the key item `key` from a record and fails with
`InvalidFormat` when the record does not have the layout of section 6: unknown
`format_version` or key type, unknown algorithm, a key id longer than
`MAX_KEY_ID_SIZE` (`max_key_id`), or lengths that do not add up.  The constants
`MAX_KEY_ID_SIZE` and `NCR_CIPHER_MAX_KEY_LEN` come from `ncr.h` and are
parameters. -/
def key_from_storage_data (table : List algo_properties_st) (max_key_id max_key_len : Nat)
    (key : key_item_st) (data : List Nat) : Except ncr_error key_item_st :=
  match data with
  | version :: type_code :: rest =>
    if version ≠ STORAGE_FORMAT_VERSION then .error .InvalidFormat
    else
      match key_type_of_code type_code with
      | none => .error .InvalidFormat
      | some type =>
        match storage_parse_algorithm table rest with
        | none => .error .InvalidFormat
        | some (algorithm, rest1) =>
          match rest1 with
          | flags :: key_id_size :: rest2 =>
            if key_id_size > max_key_id ∨ rest2.length < key_id_size then
              .error .InvalidFormat
            else
              match rest2.drop key_id_size with
              | size :: material =>
                if material.length ≠ size then .error .InvalidFormat
                else
                  match storage_restore_material max_key_len type material with
                  | none => .error .InvalidFormat
                  | some m =>
                    .ok { key with
                          type := type, flags := flags, algorithm := algorithm,
                          key_id := rest2.take key_id_size ++
                            List.replicate (max_key_id - key_id_size) 0,
                          key_id_size := key_id_size, key := m }
              | [] => .error .InvalidFormat
          | _ => .error .InvalidFormat
  | _ => .error .InvalidFormat

/-- Well-formed key items: the key id array has `MAX_KEY_ID_SIZE` bytes of which
`key_id_size` are used, the algorithm pointer (when not NULL) points to the
entry of the algorithm table for its identifier, and the union member in use is
the one of the key type, a secret using at most the `NCR_CIPHER_MAX_KEY_LEN`
bytes of its array. -/
def key_item_wf (table : List algo_properties_st) (max_key_id max_key_len : Nat)
    (key : key_item_st) : Prop :=
  key.key_id.length = max_key_id ∧ key.key_id_size ≤ max_key_id ∧
  (∀ a, key.algorithm = some a → _ncr_algo_to_properties table a.algo = some a) ∧
  (∀ data size, key.key = .secret data size →
    key.type = .NCR_KEY_TYPE_SECRET ∧ data.length = max_key_len ∧ size ≤ max_key_len) ∧
  (∀ params, key.key = .pk params → key.type ≠ .NCR_KEY_TYPE_SECRET)

/-! ## Sessions (`ncr_session_init`, `ncr_session_update`, `ncr_session_final`) -/

/-- Modelled from the spec: the `AlgorithmEngine` collaborator of section 6, cut
down to what the session state machine calls: set a transform context up from
the algorithm, operation, key and optional IV; feed input to it, giving the new
context and the output produced; finish it, giving the result. -/
structure algorithm_engine where
  start : algo_properties_st → ncr_crypto_op_t → key_item_st → Option (List Nat) → List Nat
  feed : algo_properties_st → ncr_crypto_op_t → List Nat → List Nat → List Nat × List Nat
  finish : algo_properties_st → ncr_crypto_op_t → List Nat → List Nat

/-- Modelled from the spec: `ncr_sessions_item_get` is only declared in
`ncr_int.h`; it looks a session descriptor up in the registry list. -/
def ncr_sessions_item_get (lst : list_sem_st session_item_st) (desc : Nat) :
    Option session_item_st :=
  lst.list.find? (fun item => item.desc == desc)

/-- Modelled from the spec: append the bytes a session produced to the output
data item, when the caller named one; the item must exist and the bytes must
fit its capacity. -/
def session_output (data : list_sem_st data_item_st) (output : Option Nat) (out : List Nat) :
    Except ncr_error (list_sem_st data_item_st) :=
  match output with
  | none => .ok data
  | some desc =>
    match ncr_data_item_get data desc with
    | none => .error .NotFound
    | some item =>
      if item.data_size + out.length > item.max_data_size then .error .OutOfBounds
      else
        .ok { data with list := data.list.map (fun it =>
          if it.desc == desc then
            { it with data := buffer_write it.data it.data_size out,
                      data_size := it.data_size + out.length }
          else it) }

/-- Modelled from the spec: whether the `key_type` of an algorithm matches the
type of a key (the validation of `init`, section 4.6).  By the comment on
`key_type` in `struct algo_properties_st` the field is `NCR_KEY_TYPE_SECRET` for
a secret key algorithm or MAC and `NCR_KEY_TYPE_PUBLIC` for a public key
algorithm, so a public key algorithm matches the public and the private keys. -/
def key_type_matches (algo_type key_type : ncr_key_type_t) : Bool :=
  match algo_type with
  | .NCR_KEY_TYPE_SECRET => key_type == .NCR_KEY_TYPE_SECRET
  | .NCR_KEY_TYPE_PUBLIC =>
    key_type == .NCR_KEY_TYPE_PUBLIC || key_type == .NCR_KEY_TYPE_PRIVATE
  | .NCR_KEY_TYPE_PRIVATE => key_type == .NCR_KEY_TYPE_PRIVATE

/-- Modelled from the spec: `ncr_session_init` is only declared in `ncr_int.h`.
Section 4.6: `init(algorithm, op, key_descriptor, iv?) -> descriptor` validates
that `algorithm.key_type` matches the key's type and that `needs_iv` matches
the presence of an IV (`AlgorithmMismatch` otherwise), acquires a read
reference on the key, allocates the transform state and registers the session
under a new descriptor.  The descriptor is chosen by `ncr_session_new`, which
is only declared and receives nothing but the session list: the choice is the
parameter `new_desc`, a function of the registered sessions that may fail (the
descriptor space can be exhausted).  The result is the outcome and the lists
after the call. -/
def ncr_session_init (engine : algorithm_engine)
    (new_desc : List session_item_st → Except ncr_error Nat) (lists : ncr_lists)
    (algorithm : algo_properties_st) (op : ncr_crypto_op_t) (key_desc : Nat)
    (iv : Option (List Nat)) : Except ncr_error Nat × ncr_lists :=
  match key_item_find lists.key key_desc with
  | none => (.error .NotFound, lists)
  | some key =>
    if key_type_matches algorithm.key_type key.type = false then
      (.error .AlgorithmMismatch, lists)
    else if algorithm.needs_iv ≠ iv.isSome then (.error .AlgorithmMismatch, lists)
    else
      match new_desc lists.sessions.list with
      | .error e => (.error e, lists)
      | .ok desc =>
        match (ncr_key_item_get_read lists.key key_desc).1 with
        | .error e => (.error e, lists)
        | .ok _ =>
          (.ok desc,
           { data := lists.data,
             key := (ncr_key_item_get_read lists.key key_desc).2,
             sessions :=
               { list := lists.sessions.list ++
                   [{ algorithm := algorithm, op := op,
                      ctx := engine.start algorithm op key iv,
                      key := key_desc, refcnt := 1, desc := desc }] } })

/-- Modelled from the spec: `ncr_session_update` is only declared in
`ncr_int.h`.  Section 4.6: `update(descriptor, input_data_descriptor,
output_data_descriptor?) -> bytes_produced` is valid only on an active session
(`InvalidState` otherwise); it feeds the input through the transform and appends
the output. -/
def ncr_session_update (engine : algorithm_engine) (lists : ncr_lists)
    (desc input : Nat) (output : Option Nat) : Except ncr_error Nat × ncr_lists :=
  match ncr_sessions_item_get lists.sessions desc with
  | none => (.error .InvalidState, lists)
  | some sess =>
    match ncr_data_item_get lists.data input with
    | none => (.error .NotFound, lists)
    | some item =>
      match session_output lists.data output
          (engine.feed sess.algorithm sess.op sess.ctx (item.data.take item.data_size)).2 with
      | .error e => (.error e, lists)
      | .ok data' =>
        (.ok (engine.feed sess.algorithm sess.op sess.ctx (item.data.take item.data_size)).2.length,
         { data := data',
           key := lists.key,
           sessions := { list := lists.sessions.list.map (fun it =>
             if it.desc == desc then
               { it with ctx :=
                   (engine.feed sess.algorithm sess.op sess.ctx
                     (item.data.take item.data_size)).1 }
             else it) } })

/-- Modelled from the spec: `ncr_session_final` is only declared in
`ncr_int.h`.  Section 4.6: `final(descriptor, output_data_descriptor?) ->
result` is valid only on an active session (`InvalidState` otherwise); it
finalizes the transform, releases the key read reference and removes the
session from the registry. -/
def ncr_session_final (engine : algorithm_engine) (lists : ncr_lists)
    (desc : Nat) (output : Option Nat) : Except ncr_error (List Nat) × ncr_lists :=
  match ncr_sessions_item_get lists.sessions desc with
  | none => (.error .InvalidState, lists)
  | some sess =>
    match session_output lists.data output
        (engine.finish sess.algorithm sess.op sess.ctx) with
    | .error e => (.error e, lists)
    | .ok data' =>
      (.ok (engine.finish sess.algorithm sess.op sess.ctx),
       { data := data',
         key := _ncr_key_item_put lists.key sess.key,
         sessions :=
           { list := lists.sessions.list.filter (fun it => !(it.desc == desc)) } })

/-- One session request. -/
inductive session_call where
  | init (algorithm : algo_properties_st) (op : ncr_crypto_op_t) (key_desc : Nat)
      (iv : Option (List Nat))
  | update (desc input : Nat) (output : Option Nat)
  | final (desc : Nat) (output : Option Nat)

/-- The descriptor carried by a successful outcome. -/
def outcome_desc {α : Type} (desc : α → Nat) : Except ncr_error α → Option Nat
  | .ok a => some (desc a)
  | .error _ => none

/-- One session request executed on the lists: the lists afterwards, the
descriptor the request produced (a successful `ncr_session_init`), and the
descriptor it finalized (a successful `ncr_session_final`). -/
def session_step (engine : algorithm_engine)
    (new_desc : List session_item_st → Except ncr_error Nat) (lists : ncr_lists) :
    session_call → ncr_lists × Option Nat × Option Nat
  | .init algorithm op key_desc iv =>
    ((ncr_session_init engine new_desc lists algorithm op key_desc iv).2,
     outcome_desc id (ncr_session_init engine new_desc lists algorithm op key_desc iv).1, none)
  | .update desc input output =>
    ((ncr_session_update engine lists desc input output).2, none, none)
  | .final desc output =>
    ((ncr_session_final engine lists desc output).2, none,
     outcome_desc (fun _ => desc) (ncr_session_final engine lists desc output).1)

/-- A sequence of session requests executed in order: the lists afterwards, the
descriptors produced by `ncr_session_init` and the descriptors finalized by
`ncr_session_final` along the way. -/
def session_run (engine : algorithm_engine)
    (new_desc : List session_item_st → Except ncr_error Nat) :
    ncr_lists → List session_call → ncr_lists × List Nat × List Nat
  | lists, [] => (lists, [], [])
  | lists, c :: cs =>
    ((session_run engine new_desc (session_step engine new_desc lists c).1 cs).1,
     (session_step engine new_desc lists c).2.1.toList ++
       (session_run engine new_desc (session_step engine new_desc lists c).1 cs).2.1,
     (session_step engine new_desc lists c).2.2.toList ++
       (session_run engine new_desc (session_step engine new_desc lists c).1 cs).2.2)

/-- An algorithm table entry for a secret-key algorithm without IV. -/
def example_secret_algorithm : algo_properties_st :=
  { algo := 1, kstr := "example-secret", needs_iv := false, is_hmac := false,
    can_sign := false, can_digest := false, can_encrypt := true, is_symmetric := true,
    is_pk := false, digest_size := 0, key_type := .NCR_KEY_TYPE_SECRET }

/-- An algorithm table entry for a public-key algorithm. -/
def example_public_algorithm : algo_properties_st :=
  { algo := 2, kstr := "example-public", needs_iv := false, is_hmac := false,
    can_sign := true, can_digest := false, can_encrypt := true, is_symmetric := false,
    is_pk := true, digest_size := 0, key_type := .NCR_KEY_TYPE_PUBLIC }

/-- A secret key with a 2-byte key id in a 4-byte array and 3 secret bytes in a
4-byte array, registered under descriptor 5 with no reference outstanding. -/
def example_key : key_item_st :=
  { type := .NCR_KEY_TYPE_SECRET, flags := 1, algorithm := some example_secret_algorithm,
    key_id := [10, 11, 0, 0], key_id_size := 2, key := .secret [7, 8, 9, 0] 3,
    refcnt := 1, writer := 0, uid := 1000, pid := 42, desc := 5 }

/-- A data item of capacity 4 holding 2 bytes, registered under descriptor 3. -/
def example_data : data_item_st :=
  { data := [1, 2, 0, 0], data_size := 2, max_data_size := 4, flags := 0,
    refcnt := 1, uid := 1000, pid := 42, desc := 3 }

/-- A private key holding packed parameters, registered under descriptor 6
with no reference outstanding. -/
def example_private_key : key_item_st :=
  { type := .NCR_KEY_TYPE_PRIVATE, flags := 0, algorithm := some example_public_algorithm,
    key_id := [12, 0, 0, 0], key_id_size := 1, key := .pk [4, 5, 6],
    refcnt := 1, writer := 0, uid := 1000, pid := 42, desc := 6 }

/-- Lists holding `example_data`, `example_key` and `example_private_key` and
no session. -/
def example_lists : ncr_lists :=
  { data := { list := [example_data] },
    key := { list := [example_key, example_private_key] },
    sessions := { list := [] } }

/-- A transform engine that accumulates its input and echoes it. -/
def example_engine : algorithm_engine :=
  { start := fun _ _ _ _ => [],
    feed := fun _ _ ctx input => (ctx ++ input, input),
    finish := fun _ _ ctx => ctx }

/-- A limiter ceiling of 2 keys and 1 data item per owner. -/
def example_ceiling : limits_type_t → Nat
  | .LIMIT_TYPE_KEY => 2
  | .LIMIT_TYPE_DATA => 1

/-! ## Helper lemmas on the flag translations -/

theorem and_mod_uint (x c : Nat) (hc : c < 2 ^ 32) : (x &&& c) % UINT_SIZE = x &&& c := by
  apply Nat.mod_eq_of_lt
  exact lt_of_le_of_lt Nat.and_le_right hc

theorem key_flags_to_data_eq (K D f : Nat) (hK : K < 2 ^ 32) (hD : D < 2 ^ 32) :
    key_flags_to_data K D f = if f &&& K ≠ 0 then D else 0 := by
  unfold key_flags_to_data
  simp only [and_mod_uint f K hK, Nat.zero_or]
  split
  · exact Nat.mod_eq_of_lt hD
  · rfl

theorem data_flags_to_key_eq (K D g : Nat) (hK : K < 2 ^ 32) (hD : D < 2 ^ 32) :
    data_flags_to_key K D g = if g &&& D ≠ 0 then K else 0 := by
  unfold data_flags_to_key
  simp only [and_mod_uint g D hD, Nat.zero_or]
  split
  · exact Nat.mod_eq_of_lt hK
  · rfl

theorem and_two_pow_cases (x i : Nat) : x &&& 2 ^ i = 0 ∨ x &&& 2 ^ i = 2 ^ i := by
  by_cases hb : x.testBit i = true
  · right
    apply Nat.eq_of_testBit_eq
    intro j
    rw [Nat.testBit_and, Nat.testBit_two_pow]
    by_cases hij : i = j
    · subst hij; simp [hb]
    · simp [hij]
  · left
    apply Nat.eq_of_testBit_eq
    intro j
    rw [Nat.testBit_and, Nat.testBit_two_pow]
    by_cases hij : i = j
    · subst hij; simp [hb]
    · simp [hij]

/-! ## Theorems on the flag translations -/

/-- C1: for every key flag word, `key_flags_to_data` returns
`NCR_DATA_FLAG_EXPORTABLE` when the word has a bit in common with
`NCR_KEY_FLAG_EXPORTABLE`, and 0 otherwise (the constants are `unsigned int`
values). -/
theorem key_flags_to_data_spec (K D key_flags : Nat) (hK : K < 2 ^ 32) (hD : D < 2 ^ 32) :
    (key_flags &&& K ≠ 0 → key_flags_to_data K D key_flags = D) ∧
    (key_flags &&& K = 0 → key_flags_to_data K D key_flags = 0) := by
  rw [key_flags_to_data_eq K D key_flags hK hD]
  constructor
  · intro h; simp [h]
  · intro h; simp [h]

theorem key_flags_to_data_spec_witness :
    (1 : Nat) < 2 ^ 32 ∧ (1 : Nat) < 2 ^ 32 ∧
    (3 &&& 1 ≠ 0 ∧ key_flags_to_data 1 1 3 = 1) ∧
    (2 &&& 1 = 0 ∧ key_flags_to_data 1 1 2 = 0) :=
  ⟨by norm_num, by norm_num,
   ⟨by decide, (key_flags_to_data_spec 1 1 3 (by norm_num) (by norm_num)).1 (by decide)⟩,
   ⟨by decide, (key_flags_to_data_spec 1 1 2 (by norm_num) (by norm_num)).2 (by decide)⟩⟩

/-- C2: for every data flag word, `data_flags_to_key` returns
`NCR_KEY_FLAG_EXPORTABLE` when the word has a bit in common with
`NCR_DATA_FLAG_EXPORTABLE`, and 0 otherwise (the constants are `unsigned int`
values). -/
theorem data_flags_to_key_spec (K D data_flags : Nat) (hK : K < 2 ^ 32) (hD : D < 2 ^ 32) :
    (data_flags &&& D ≠ 0 → data_flags_to_key K D data_flags = K) ∧
    (data_flags &&& D = 0 → data_flags_to_key K D data_flags = 0) := by
  rw [data_flags_to_key_eq K D data_flags hK hD]
  constructor
  · intro h; simp [h]
  · intro h; simp [h]

theorem data_flags_to_key_spec_witness :
    (1 : Nat) < 2 ^ 32 ∧ (4 : Nat) < 2 ^ 32 ∧
    (5 &&& 4 ≠ 0 ∧ data_flags_to_key 1 4 5 = 1) ∧
    (3 &&& 4 = 0 ∧ data_flags_to_key 1 4 3 = 0) :=
  ⟨by norm_num, by norm_num,
   ⟨by decide, (data_flags_to_key_spec 1 4 5 (by norm_num) (by norm_num)).1 (by decide)⟩,
   ⟨by decide, (data_flags_to_key_spec 1 4 3 (by norm_num) (by norm_num)).2 (by decide)⟩⟩

/-- C8: when both exportable constants are non-zero `unsigned int` values, the
two translations are mutually inverse on the exportable bit: translating key
flags to data flags and back has the key-exportable flag set exactly when the
input had it, and symmetrically for data flags; when each constant is a single
bit the round trips equal `f & NCR_KEY_FLAG_EXPORTABLE` and
`g & NCR_DATA_FLAG_EXPORTABLE`. -/
theorem flags_translation_inverse (K D f g : Nat) (hK : K < 2 ^ 32) (hD : D < 2 ^ 32)
    (hK0 : K ≠ 0) (hD0 : D ≠ 0) :
    (data_flags_to_key K D (key_flags_to_data K D f) &&& K ≠ 0 ↔ f &&& K ≠ 0) ∧
    (key_flags_to_data K D (data_flags_to_key K D g) &&& D ≠ 0 ↔ g &&& D ≠ 0) ∧
    ((∃ i, K = 2 ^ i) → (∃ j, D = 2 ^ j) →
      data_flags_to_key K D (key_flags_to_data K D f) = f &&& K ∧
      key_flags_to_data K D (data_flags_to_key K D g) = g &&& D) := by
  have hkd : data_flags_to_key K D (key_flags_to_data K D f) = if f &&& K ≠ 0 then K else 0 := by
    rw [key_flags_to_data_eq K D f hK hD]
    by_cases h : f &&& K = 0
    · simp [h, data_flags_to_key_eq K D 0 hK hD]
    · simp [h, data_flags_to_key_eq K D D hK hD, hD0]
  have hdk : key_flags_to_data K D (data_flags_to_key K D g) = if g &&& D ≠ 0 then D else 0 := by
    rw [data_flags_to_key_eq K D g hK hD]
    by_cases h : g &&& D = 0
    · simp [h, key_flags_to_data_eq K D 0 hK hD]
    · simp [h, key_flags_to_data_eq K D K hK hD, hK0]
  refine ⟨?_, ?_, ?_⟩
  · rw [hkd]
    by_cases h : f &&& K = 0
    · simp [h]
    · simp [h, hK0]
  · rw [hdk]
    by_cases h : g &&& D = 0
    · simp [h]
    · simp [h, hD0]
  · rintro ⟨i, rfl⟩ ⟨j, rfl⟩
    rw [hkd, hdk]
    constructor
    · rcases and_two_pow_cases f i with h | h
      · simp [h]
      · simp [h]
    · rcases and_two_pow_cases g j with h | h
      · simp [h]
      · simp [h]

theorem flags_translation_inverse_witness :
    (2 : Nat) < 2 ^ 32 ∧ (4 : Nat) < 2 ^ 32 ∧ (2 : Nat) ≠ 0 ∧ (4 : Nat) ≠ 0 ∧
    ((data_flags_to_key 2 4 (key_flags_to_data 2 4 7) &&& 2 ≠ 0 ↔ 7 &&& 2 ≠ 0) ∧
     (key_flags_to_data 2 4 (data_flags_to_key 2 4 3) &&& 4 ≠ 0 ↔ 3 &&& 4 ≠ 0) ∧
     ((∃ i, (2 : Nat) = 2 ^ i) → (∃ j, (4 : Nat) = 2 ^ j) →
       data_flags_to_key 2 4 (key_flags_to_data 2 4 7) = 7 &&& 2 ∧
       key_flags_to_data 2 4 (data_flags_to_key 2 4 3) = 3 &&& 4)) :=
  ⟨by norm_num, by norm_num, by decide, by decide,
   flags_translation_inverse 2 4 7 3 (by norm_num) (by norm_num) (by decide) (by decide)⟩

/-- C9: no flag other than exportable influences a translation: two key flag
words that agree on `NCR_KEY_FLAG_EXPORTABLE` translate to the same data flags,
two data flag words that agree on `NCR_DATA_FLAG_EXPORTABLE` translate to the
same key flags, and a key flag word without the exportable flag translates to
data flags that have no bit of `NCR_DATA_FLAG_EXPORTABLE`. -/
theorem flags_translation_only_exportable (K D f f' g g' : Nat) :
    (f &&& K = f' &&& K → key_flags_to_data K D f = key_flags_to_data K D f') ∧
    (g &&& D = g' &&& D → data_flags_to_key K D g = data_flags_to_key K D g') ∧
    (f &&& K = 0 → key_flags_to_data K D f = 0 ∧ key_flags_to_data K D f &&& D = 0) := by
  refine ⟨?_, ?_, ?_⟩
  · intro h
    simp only [key_flags_to_data, h]
  · intro h
    simp only [data_flags_to_key, h]
  · intro h
    have h0 : key_flags_to_data K D f = 0 := by
      simp [key_flags_to_data, h]
    simp [h0]

theorem flags_translation_only_exportable_witness :
    ((6 &&& 1 = 4 &&& 1) ∧ key_flags_to_data 1 1 6 = key_flags_to_data 1 1 4) ∧
    ((7 &&& 1 = 5 &&& 1) ∧ data_flags_to_key 1 1 7 = data_flags_to_key 1 1 5) ∧
    ((6 &&& 1 = 0) ∧ key_flags_to_data 1 1 6 = 0 ∧ key_flags_to_data 1 1 6 &&& 1 = 0) :=
  ⟨⟨by decide, (flags_translation_only_exportable 1 1 6 4 7 5).1 (by decide)⟩,
   ⟨by decide, (flags_translation_only_exportable 1 1 6 4 7 5).2.1 (by decide)⟩,
   ⟨by decide, (flags_translation_only_exportable 1 1 6 4 7 5).2.2 (by decide)⟩⟩

/-! ## Data items -/

/-- C4: when the request addresses an item of the registry and `offset + length`
exceeds the item's capacity (`max_data_size`), `ncr_data_set` and `ncr_data_get`
fail with `OutOfBounds` and return the registry unchanged, so the item found
under the descriptor afterwards is the same item (same buffer, same
`data_size`). -/
theorem data_out_of_bounds (lst : list_sem_st data_item_st) (desc offset len : Nat)
    (bytes : List Nat) (item : data_item_st)
    (hitem : ncr_data_item_get lst desc = some item) :
    (offset + bytes.length > item.max_data_size →
      ncr_data_set lst desc offset bytes = (.error .OutOfBounds, lst) ∧
      ncr_data_item_get (ncr_data_set lst desc offset bytes).2 desc = some item) ∧
    (offset + len > item.max_data_size →
      ncr_data_get lst desc offset len = (.error .OutOfBounds, lst) ∧
      ncr_data_item_get (ncr_data_get lst desc offset len).2 desc = some item) := by
  constructor
  · intro h
    have hset : ncr_data_set lst desc offset bytes = (.error .OutOfBounds, lst) := by
      simp only [ncr_data_set, hitem]
      rw [if_pos h]
    exact ⟨hset, by rw [hset]; exact hitem⟩
  · intro h
    have hget : ncr_data_get lst desc offset len = (.error .OutOfBounds, lst) := by
      simp only [ncr_data_get, hitem]
      rw [if_pos h]
    exact ⟨hget, by rw [hget]; exact hitem⟩

theorem data_out_of_bounds_witness :
    ncr_data_item_get example_lists.data 3 = some example_data ∧
    (3 + [5, 6].length > example_data.max_data_size ∧
      ncr_data_set example_lists.data 3 3 [5, 6] = (.error .OutOfBounds, example_lists.data) ∧
      ncr_data_item_get (ncr_data_set example_lists.data 3 3 [5, 6]).2 3 = some example_data) ∧
    (1 + 4 > example_data.max_data_size ∧
      ncr_data_get example_lists.data 3 1 4 = (.error .OutOfBounds, example_lists.data) ∧
      ncr_data_item_get (ncr_data_get example_lists.data 3 1 4).2 3 = some example_data) :=
  ⟨rfl,
   ⟨by decide, (data_out_of_bounds example_lists.data 3 3 4 [5, 6] example_data rfl).1 (by decide)⟩,
   ⟨by decide, (data_out_of_bounds example_lists.data 3 1 4 [5, 6] example_data rfl).2 (by decide)⟩⟩

/-! ## Resource limiter -/

theorem limits_match_type (uid pid : Nat) (type : limits_type_t) (e : limits_item_st)
    (h : limits_match uid pid type e = true) : e.type = type := by
  simp only [limits_match, Bool.and_eq_true, beq_iff_eq] at h
  exact h.2

theorem limits_inv_add (ceiling : limits_type_t → Nat) (st : List limits_item_st)
    (uid pid : Nat) (type : limits_type_t) (h : limits_inv ceiling st) :
    limits_inv ceiling (ncr_limits_add_and_check ceiling st uid pid type).2 := by
  induction st with
  | nil =>
    unfold ncr_limits_add_and_check
    split
    · rename_i hpos
      intro e he
      simp only [List.mem_singleton] at he
      subst he
      simp only
      omega
    · exact h
  | cons e rest ih =>
    have hrest : limits_inv ceiling rest := fun x hx => h x (List.mem_cons_of_mem _ hx)
    have he := h e (List.mem_cons_self _ _)
    unfold ncr_limits_add_and_check
    split
    · rename_i hm
      have hty := limits_match_type uid pid type e hm
      split
      · rename_i hlt
        intro x hx
        simp only [List.mem_cons] at hx
        rcases hx with hx | hx
        · subst hx
          simp only
          rw [hty]
          omega
        · exact hrest x hx
      · exact h
    · intro x hx
      simp only [List.mem_cons] at hx
      rcases hx with hx | hx
      · subst hx; exact he
      · exact ih hrest x hx

theorem limits_inv_remove (ceiling : limits_type_t → Nat) (st : List limits_item_st)
    (uid pid : Nat) (type : limits_type_t) (h : limits_inv ceiling st) :
    limits_inv ceiling (ncr_limits_remove st uid pid type) := by
  induction st with
  | nil => simpa [ncr_limits_remove] using h
  | cons e rest ih =>
    have hrest : limits_inv ceiling rest := fun x hx => h x (List.mem_cons_of_mem _ hx)
    have he := h e (List.mem_cons_self _ _)
    unfold ncr_limits_remove
    split
    · split
      · exact hrest
      · rename_i hne
        intro x hx
        simp only [List.mem_cons] at hx
        rcases hx with hx | hx
        · subst hx
          simp only
          omega
        · exact hrest x hx
    · intro x hx
      simp only [List.mem_cons] at hx
      rcases hx with hx | hx
      · subst hx; exact he
      · exact ih hrest x hx

theorem limits_inv_run (ceiling : limits_type_t → Nat) (calls : List limits_call)
    (st : List limits_item_st) (h : limits_inv ceiling st) :
    limits_inv ceiling (calls.foldl (limits_step ceiling) st) := by
  induction calls generalizing st with
  | nil => exact h
  | cons c cs ih =>
    simp only [List.foldl_cons]
    apply ih
    cases c with
    | add uid pid type => exact limits_inv_add ceiling st uid pid type h
    | remove uid pid type => exact limits_inv_remove ceiling st uid pid type h

theorem limits_count_bounds (ceiling : limits_type_t → Nat) (st : List limits_item_st)
    (uid pid : Nat) (type : limits_type_t) (h : limits_inv ceiling st) :
    0 ≤ limits_count st uid pid type ∧ limits_count st uid pid type ≤ ceiling type := by
  unfold limits_count
  split
  · rename_i e hfind
    have hmem := List.mem_of_find?_eq_some hfind
    have hm := List.find?_some hfind
    have hty := limits_match_type uid pid type e hm
    have he := h e hmem
    rw [hty] at he
    omega
  · omega

theorem limits_add_fail_unchanged (ceiling : limits_type_t → Nat) (st : List limits_item_st)
    (uid pid : Nat) (type : limits_type_t) (err : ncr_error)
    (h : (ncr_limits_add_and_check ceiling st uid pid type).1 = .error err) :
    err = .LimitExceeded ∧ (ncr_limits_add_and_check ceiling st uid pid type).2 = st := by
  induction st with
  | nil =>
    unfold ncr_limits_add_and_check at h ⊢
    split
    · rename_i hpos
      rw [if_pos hpos] at h
      cases h
    · rename_i hpos
      rw [if_neg hpos] at h
      injection h with h
      exact ⟨h.symm, rfl⟩
  | cons e rest ih =>
    unfold ncr_limits_add_and_check at h ⊢
    split
    · rename_i hm
      rw [if_pos hm] at h
      split
      · rename_i hlt
        rw [if_pos hlt] at h
        cases h
      · rename_i hlt
        rw [if_neg hlt] at h
        injection h with h
        exact ⟨h.symm, rfl⟩
    · rename_i hm
      rw [if_neg hm] at h
      have := ih h
      exact ⟨this.1, by rw [this.2]⟩

/-- C5: after every sequence of `ncr_limits_add_and_check` and
`ncr_limits_remove` calls on a freshly initialised limiter, the count recorded
for any (uid, pid, kind) is at least 0 and at most the ceiling configured for
the kind; and from any limiter state, a call to `ncr_limits_add_and_check` that
fails (it can only fail with `LimitExceeded`) leaves the limiter state, hence
every count, unchanged. -/
theorem limits_count_invariant (ceiling : limits_type_t → Nat) (calls : List limits_call)
    (st : List limits_item_st) (uid pid uid' pid' : Nat) (type type' : limits_type_t)
    (err : ncr_error) :
    (0 ≤ limits_count (limits_run ceiling calls) uid pid type ∧
     limits_count (limits_run ceiling calls) uid pid type ≤ ceiling type) ∧
    ((ncr_limits_add_and_check ceiling st uid pid type).1 = .error err →
      err = .LimitExceeded ∧
      (ncr_limits_add_and_check ceiling st uid pid type).2 = st ∧
      limits_count (ncr_limits_add_and_check ceiling st uid pid type).2 uid' pid' type' =
        limits_count st uid' pid' type') := by
  constructor
  · apply limits_count_bounds
    apply limits_inv_run
    intro e he
    cases he
  · intro h
    have := limits_add_fail_unchanged ceiling st uid pid type err h
    exact ⟨this.1, this.2, by rw [this.2]⟩

theorem limits_count_invariant_witness :
    (ncr_limits_add_and_check example_ceiling
        [{ uid := 1, pid := 1, type := .LIMIT_TYPE_KEY, cnt := 2 }] 1 1 .LIMIT_TYPE_KEY).1 =
      .error .LimitExceeded ∧
    ((0 ≤ limits_count (limits_run example_ceiling
          [.add 1 1 .LIMIT_TYPE_KEY, .add 1 1 .LIMIT_TYPE_KEY, .add 1 1 .LIMIT_TYPE_KEY,
           .remove 1 1 .LIMIT_TYPE_KEY]) 1 1 .LIMIT_TYPE_KEY ∧
      limits_count (limits_run example_ceiling
          [.add 1 1 .LIMIT_TYPE_KEY, .add 1 1 .LIMIT_TYPE_KEY, .add 1 1 .LIMIT_TYPE_KEY,
           .remove 1 1 .LIMIT_TYPE_KEY]) 1 1 .LIMIT_TYPE_KEY ≤
        example_ceiling .LIMIT_TYPE_KEY) ∧
     (ncr_error.LimitExceeded = .LimitExceeded ∧
      (ncr_limits_add_and_check example_ceiling
          [{ uid := 1, pid := 1, type := .LIMIT_TYPE_KEY, cnt := 2 }] 1 1 .LIMIT_TYPE_KEY).2 =
        [{ uid := 1, pid := 1, type := .LIMIT_TYPE_KEY, cnt := 2 }] ∧
      limits_count (ncr_limits_add_and_check example_ceiling
          [{ uid := 1, pid := 1, type := .LIMIT_TYPE_KEY, cnt := 2 }] 1 1 .LIMIT_TYPE_KEY).2
          1 1 .LIMIT_TYPE_KEY =
        limits_count [{ uid := 1, pid := 1, type := .LIMIT_TYPE_KEY, cnt := 2 }]
          1 1 .LIMIT_TYPE_KEY)) :=
  ⟨rfl,
   (limits_count_invariant example_ceiling
      [.add 1 1 .LIMIT_TYPE_KEY, .add 1 1 .LIMIT_TYPE_KEY, .add 1 1 .LIMIT_TYPE_KEY,
       .remove 1 1 .LIMIT_TYPE_KEY]
      [{ uid := 1, pid := 1, type := .LIMIT_TYPE_KEY, cnt := 2 }]
      1 1 1 1 .LIMIT_TYPE_KEY .LIMIT_TYPE_KEY .LimitExceeded).1,
   (limits_count_invariant example_ceiling
      [.add 1 1 .LIMIT_TYPE_KEY, .add 1 1 .LIMIT_TYPE_KEY, .add 1 1 .LIMIT_TYPE_KEY,
       .remove 1 1 .LIMIT_TYPE_KEY]
      [{ uid := 1, pid := 1, type := .LIMIT_TYPE_KEY, cnt := 2 }]
      1 1 1 1 .LIMIT_TYPE_KEY .LIMIT_TYPE_KEY .LimitExceeded).2 rfl⟩

/-! ## Key item references -/

theorem key_item_find_store (l : List key_item_st) (desc : Nat)
    (item item' : key_item_st)
    (hfind : key_item_find { list := l } desc = some item)
    (hdesc : item'.desc = desc) :
    key_item_find (key_item_store { list := l } desc item') desc =
      some item' := by
  induction l with
  | nil => simp [key_item_find] at hfind
  | cons x xs ih =>
    simp only [key_item_find, key_item_store, List.map_cons] at hfind ih ⊢
    by_cases hx : x.desc = desc
    · simp [hx, hdesc]
    · have hx' : (x.desc == desc) = false := by simpa using hx
      rw [List.find?_cons_of_neg _ (by simp [hx'])] at hfind
      simp only [hx', Bool.false_eq_true, if_false]
      rw [List.find?_cons_of_neg _ (by simp [hx'])]
      exact ih hfind

theorem key_item_find_desc (lst : list_sem_st key_item_st) (desc : Nat) (item : key_item_st)
    (hfind : key_item_find lst desc = some item) : item.desc = desc := by
  have := List.find?_some hfind
  simpa using this

theorem key_access_inv_step (desc : Nat) (s : key_access_st) (c : key_access_call)
    (h : key_access_inv desc s) : key_access_inv desc (key_access_step desc s c) := by
  obtain ⟨item, hfind, hw, hr, hle, hex⟩ := h
  have hd := key_item_find_desc s.lst desc item hfind
  cases c with
  | get_read =>
    simp only [key_access_step, ncr_key_item_get_read, hfind, key_item_acquire_read]
    by_cases hwz : item.writer = 0
    · simp only [hwz, ne_eq, not_true_eq_false, if_false]
      refine ⟨_, key_item_find_store s.lst.list desc item _ hfind hd, ?_, ?_, hle, ?_⟩
      · dsimp only; omega
      · dsimp only; omega
      · intro h1; dsimp only at h1 ⊢; omega
    · simp only [ne_eq, hwz, not_false_eq_true, if_true]
      exact ⟨item, hfind, hw, hr, hle, hex⟩
  | get_write =>
    simp only [key_access_step, ncr_key_item_get_write, hfind, key_item_acquire_write]
    by_cases hrc : item.refcnt > 1
    · simp only [hrc, if_true]
      exact ⟨item, hfind, hw, hr, hle, hex⟩
    · by_cases hwz : item.writer = 0
      · simp only [hrc, hwz, ne_eq, not_true_eq_false, if_false]
        refine ⟨_, key_item_find_store s.lst.list desc item _ hfind hd, ?_, ?_, ?_, ?_⟩
        · dsimp only; omega
        · dsimp only; omega
        · dsimp only; omega
        · intro _; dsimp only; omega
      · simp only [hrc, ne_eq, hwz, not_false_eq_true, if_true, if_false]
        exact ⟨item, hfind, hw, hr, hle, hex⟩
  | put_read =>
    simp only [key_access_step]
    by_cases hpos : s.readers > 0
    · simp only [hpos, if_true, _ncr_key_item_put, hfind]
      have hw0 : s.writers = 0 := by
        by_contra hne
        have : s.writers = 1 := by omega
        have := hex this
        omega
      have hne : ¬ (key_item_release item).refcnt = 0 := by
        simp only [key_item_release]; omega
      simp only [hne, if_false]
      refine ⟨_, key_item_find_store s.lst.list desc item _ hfind hd, ?_, ?_, hle, ?_⟩
      · have hnw : ¬ item.writer > 0 := by omega
        simp only [key_item_release, hnw, if_false]; exact hw
      · simp only [key_item_release]; omega
      · intro h1; dsimp only at h1 ⊢; omega
    · simp only [hpos, if_false]
      exact ⟨item, hfind, hw, hr, hle, hex⟩
  | put_write =>
    simp only [key_access_step]
    by_cases hpos : s.writers > 0
    · simp only [hpos, if_true, _ncr_key_item_put, hfind]
      have hw1 : s.writers = 1 := by omega
      have hr0 := hex hw1
      have hne : ¬ (key_item_release item).refcnt = 0 := by
        simp only [key_item_release]; omega
      simp only [hne, if_false]
      refine ⟨_, key_item_find_store s.lst.list desc item _ hfind hd, ?_, ?_, ?_, ?_⟩
      · have hpw : item.writer > 0 := by omega
        simp only [key_item_release, hpw, if_true]; omega
      · simp only [key_item_release]; omega
      · dsimp only; omega
      · intro h1; dsimp only at h1 ⊢; omega
    · simp only [hpos, if_false]
      exact ⟨item, hfind, hw, hr, hle, hex⟩

theorem key_access_inv_foldl (desc : Nat) (calls : List key_access_call) (s : key_access_st)
    (h : key_access_inv desc s) :
    key_access_inv desc (calls.foldl (key_access_step desc) s) := by
  induction calls generalizing s with
  | nil => exact h
  | cons c cs ih =>
    simp only [List.foldl_cons]
    exact ih _ (key_access_inv_step desc s c h)

theorem key_access_inv_write (desc : Nat) (s : key_access_st) (h : key_access_inv desc s) :
    ((∃ granted, (ncr_key_item_get_write s.lst desc).1 = .ok granted) ↔
      (s.readers = 0 ∧ s.writers = 0)) ∧
    (¬ (s.readers = 0 ∧ s.writers = 0) →
      ncr_key_item_get_write s.lst desc = (.error .Busy, s.lst)) ∧
    (∃ item, key_item_find s.lst desc = some item ∧ item.writer = s.writers ∧
      0 ≤ item.writer ∧ item.writer ≤ 1) := by
  obtain ⟨item, hfind, hw, hr, hle, hex⟩ := h
  refine ⟨?_, ?_, ⟨item, hfind, hw, by omega, by omega⟩⟩
  · simp only [ncr_key_item_get_write, hfind, key_item_acquire_write]
    by_cases hrc : item.refcnt > 1
    · simp only [hrc, if_true]
      constructor
      · rintro ⟨g, hg⟩; cases hg
      · rintro ⟨h1, h2⟩; omega
    · by_cases hwz : item.writer = 0
      · simp only [hrc, hwz, ne_eq, not_true_eq_false, if_false]
        constructor
        · intro _; omega
        · intro _; exact ⟨_, rfl⟩
      · simp only [hrc, ne_eq, hwz, not_false_eq_true, if_true, if_false]
        constructor
        · rintro ⟨g, hg⟩; cases hg
        · rintro ⟨h1, h2⟩; omega
  · intro hout
    simp only [ncr_key_item_get_write, hfind, key_item_acquire_write]
    by_cases hrc : item.refcnt > 1
    · simp only [hrc, if_true]
    · have hwz : item.writer ≠ 0 := by omega
      simp only [hrc, ne_eq, hwz, not_false_eq_true, if_true, if_false]

/-- C6: take a registered key with no reference outstanding (reference count 1,
writer count 0) and any sequence of read requests, write requests and releases
of granted references on it.  Afterwards `ncr_key_item_get_write` succeeds
exactly when no granted read or write reference is outstanding, and otherwise
fails with `Busy` and leaves the registry unchanged; at most one write reference
is outstanding, and the item's writer count equals that number, so it is 0 or
1. -/
theorem key_write_exclusive (lst : list_sem_st key_item_st) (desc : Nat) (item : key_item_st)
    (calls : List key_access_call)
    (hfind : key_item_find lst desc = some item)
    (hrefcnt : item.refcnt = 1) (hwriter : item.writer = 0) :
    ((∃ granted, (ncr_key_item_get_write (key_access_run desc lst calls).lst desc).1 =
        .ok granted) ↔
      ((key_access_run desc lst calls).readers = 0 ∧
       (key_access_run desc lst calls).writers = 0)) ∧
    (¬ ((key_access_run desc lst calls).readers = 0 ∧
        (key_access_run desc lst calls).writers = 0) →
      ncr_key_item_get_write (key_access_run desc lst calls).lst desc =
        (.error .Busy, (key_access_run desc lst calls).lst)) ∧
    (key_access_run desc lst calls).writers ≤ 1 ∧
    (∃ it, key_item_find (key_access_run desc lst calls).lst desc = some it ∧
      it.writer = (key_access_run desc lst calls).writers ∧ 0 ≤ it.writer ∧ it.writer ≤ 1) := by
  have hinv : key_access_inv desc (key_access_run desc lst calls) := by
    apply key_access_inv_foldl
    exact ⟨item, hfind, by simp [hwriter], by simp [hrefcnt], by simp, by simp⟩
  have hwr := key_access_inv_write desc _ hinv
  obtain ⟨_, _, _, _, hle, _⟩ := hinv
  exact ⟨hwr.1, hwr.2.1, hle, hwr.2.2⟩

theorem key_write_exclusive_witness :
    key_item_find example_lists.key 5 = some example_key ∧
    example_key.refcnt = 1 ∧ example_key.writer = 0 ∧
    (key_access_run 5 example_lists.key [.get_read, .put_read, .get_write]).writers ≤ 1 ∧
    (¬ ((key_access_run 5 example_lists.key [.get_read, .put_read, .get_write]).readers = 0 ∧
        (key_access_run 5 example_lists.key [.get_read, .put_read, .get_write]).writers = 0)) ∧
    ncr_key_item_get_write
        (key_access_run 5 example_lists.key [.get_read, .put_read, .get_write]).lst 5 =
      (.error .Busy, (key_access_run 5 example_lists.key [.get_read, .put_read, .get_write]).lst) :=
  ⟨rfl, rfl, rfl,
   (key_write_exclusive example_lists.key 5 example_key [.get_read, .put_read, .get_write]
      rfl rfl rfl).2.2.1,
   by decide,
   (key_write_exclusive example_lists.key 5 example_key [.get_read, .put_read, .get_write]
      rfl rfl rfl).2.1 (by decide)⟩

/-! ## Key storage -/

theorem key_type_of_code_code (t : ncr_key_type_t) : key_type_of_code (key_type_code t) = some t := by
  cases t <;> rfl

theorem storage_parse_algorithm_field (table : List algo_properties_st)
    (algorithm : Option algo_properties_st) (rest : List Nat)
    (h : ∀ a, algorithm = some a → _ncr_algo_to_properties table a.algo = some a) :
    storage_parse_algorithm table (storage_algorithm_field algorithm ++ rest) =
      some (algorithm, rest) := by
  cases algorithm with
  | none => rfl
  | some a =>
    simp only [storage_algorithm_field, List.cons_append, List.nil_append,
      storage_parse_algorithm, h a rfl]

theorem storage_restore_material_ok (table : List algo_properties_st)
    (max_key_id max_key_len : Nat) (k : key_item_st)
    (hwf : key_item_wf table max_key_id max_key_len k) :
    ∃ m, storage_restore_material max_key_len k.type (key_material k) = some m ∧
      key_union_material m = key_material k := by
  obtain ⟨_, _, _, hsecret, hpk⟩ := hwf
  unfold key_material
  cases hkey : k.key with
  | secret data size =>
    obtain ⟨hty, hlen, hsize⟩ := hsecret data size hkey
    have hl : (List.take size data).length = size := by
      rw [List.length_take]; omega
    refine ⟨.secret (List.take size data ++ List.replicate (max_key_len - size) 0) size, ?_, ?_⟩
    · simp only [storage_restore_material, key_union_material, hty, if_true, hl]
      rw [if_neg (by omega)]
    · simp only [key_union_material]
      rw [List.take_append_of_le_length (by omega), List.take_of_length_le (by omega)]
  | pk params =>
    have hty := hpk params hkey
    exact ⟨.pk params, by simp only [storage_restore_material, key_union_material, hty, if_false], rfl⟩

theorem key_from_storage_data_of_to (table : List algo_properties_st)
    (max_key_id max_key_len : Nat) (k target : key_item_st) (m : key_union)
    (hwf : key_item_wf table max_key_id max_key_len k)
    (hm : storage_restore_material max_key_len k.type (key_material k) = some m) :
    key_from_storage_data table max_key_id max_key_len target
        (STORAGE_FORMAT_VERSION :: key_type_code k.type ::
          (storage_algorithm_field k.algorithm ++
            (k.flags :: k.key_id_size ::
              (k.key_id.take k.key_id_size ++
                ((key_material k).length :: key_material k))))) =
      .ok { target with
            type := k.type, flags := k.flags, algorithm := k.algorithm,
            key_id := k.key_id.take k.key_id_size ++
              List.replicate (max_key_id - k.key_id_size) 0,
            key_id_size := k.key_id_size, key := m } := by
  obtain ⟨hidlen, hidsize, halg, _, _⟩ := hwf
  have htake : (k.key_id.take k.key_id_size).length = k.key_id_size := by
    rw [List.length_take]; omega
  have hdrop : List.drop k.key_id_size
      (k.key_id.take k.key_id_size ++ ((key_material k).length :: key_material k)) =
      (key_material k).length :: key_material k := by
    rw [List.drop_append_of_le_length (by omega), List.drop_of_length_le (by omega)]
    rfl
  have htk : List.take k.key_id_size
      (k.key_id.take k.key_id_size ++ ((key_material k).length :: key_material k)) =
      k.key_id.take k.key_id_size := by
    rw [List.take_append_of_le_length (by omega), List.take_of_length_le (by omega)]
  have hguard : ¬ (k.key_id_size > max_key_id ∨
      (k.key_id.take k.key_id_size ++
        ((key_material k).length :: key_material k)).length < k.key_id_size) := by
    rw [List.length_append, htake]
    omega
  unfold key_from_storage_data
  simp only [ne_eq, not_true_eq_false, if_false, key_type_of_code_code,
    storage_parse_algorithm_field table k.algorithm _ halg, hguard, hdrop, hm, htk]

/-- C3: for every well-formed key item `k`, `key_to_storage_data` succeeds and
`key_from_storage_data` on its output succeeds and fills the target item with
the type, algorithm, flags and key id size of `k`, with the used key id bytes
of `k` (followed by zeros up to the array size), and with the key union of `k`:
a secret comes back with the same size and the same used bytes (followed by
zeros up to the array size), so it is the same union value whenever the unused
bytes of `k` were zero, and packed asymmetric parameters come back unchanged.
The reference counts, owner and descriptor of the target are kept. -/
theorem storage_round_trip (table : List algo_properties_st) (max_key_id max_key_len : Nat)
    (k target : key_item_st) (hwf : key_item_wf table max_key_id max_key_len k) :
    ∃ data k', key_to_storage_data k = .ok data ∧
      key_from_storage_data table max_key_id max_key_len target data = .ok k' ∧
      k'.type = k.type ∧ k'.algorithm = k.algorithm ∧ k'.flags = k.flags ∧
      k'.key_id_size = k.key_id_size ∧
      k'.key_id = k.key_id.take k.key_id_size ++
        List.replicate (max_key_id - k.key_id_size) 0 ∧
      k'.key_id.take k'.key_id_size = k.key_id.take k.key_id_size ∧
      (∀ d n, k.key = .secret d n →
        k'.key = .secret (d.take n ++ List.replicate (max_key_len - n) 0) n ∧
        (d.drop n = List.replicate (max_key_len - n) 0 → k'.key = k.key)) ∧
      (∀ p, k.key = .pk p → k'.key = .pk p) ∧
      k'.refcnt = target.refcnt ∧ k'.writer = target.writer ∧ k'.uid = target.uid ∧
      k'.pid = target.pid ∧ k'.desc = target.desc := by
  obtain ⟨m, hm, _⟩ := storage_restore_material_ok table max_key_id max_key_len k hwf
  have hfrom := key_from_storage_data_of_to table max_key_id max_key_len k target m hwf hm
  obtain ⟨hidlen, hidsize, _, hsecret, hpk⟩ := hwf
  refine ⟨_, _, rfl, hfrom, rfl, rfl, rfl, rfl, rfl, ?_, ?_, ?_, rfl, rfl, rfl, rfl, rfl⟩
  · dsimp only
    rw [List.take_append_of_le_length (by rw [List.length_take]; omega),
      List.take_of_length_le (by rw [List.length_take]; omega)]
  · intro d n hkey
    obtain ⟨hty, hlen, hsize⟩ := hsecret d n hkey
    have hl : (List.take n d).length = n := by
      rw [List.length_take]; omega
    have hm' : m = .secret (d.take n ++ List.replicate (max_key_len - n) 0) n := by
      simp only [storage_restore_material, key_material, key_union_material, hkey, hty,
        if_true, hl] at hm
      rw [if_neg (by omega)] at hm
      exact (Option.some.inj hm).symm
    dsimp only
    refine ⟨hm', ?_⟩
    intro hzero
    rw [hm', hkey, ← hzero, List.take_append_drop]
  · intro p hkey
    have hty := hpk p hkey
    simp only [storage_restore_material, key_material, key_union_material, hkey, hty,
      if_false] at hm
    dsimp only
    exact (Option.some.inj hm).symm

theorem storage_round_trip_witness :
    key_item_wf [example_secret_algorithm, example_public_algorithm] 4 4 example_key ∧
    key_to_storage_data example_key = .ok [1, 1, 1, 1, 1, 2, 10, 11, 3, 7, 8, 9] ∧
    key_from_storage_data [example_secret_algorithm, example_public_algorithm] 4 4
      example_key [1, 1, 1, 1, 1, 2, 10, 11, 3, 7, 8, 9] = .ok example_key ∧
    ∃ data k', key_to_storage_data example_key = .ok data ∧
      key_from_storage_data [example_secret_algorithm, example_public_algorithm] 4 4
        example_key data = .ok k' ∧
      k'.type = example_key.type ∧ k'.algorithm = example_key.algorithm ∧
      k'.flags = example_key.flags ∧ k'.key_id_size = example_key.key_id_size ∧
      k'.key_id = example_key.key_id.take example_key.key_id_size ++
        List.replicate (4 - example_key.key_id_size) 0 ∧
      k'.key_id.take k'.key_id_size = example_key.key_id.take example_key.key_id_size ∧
      (∀ d n, example_key.key = .secret d n →
        k'.key = .secret (d.take n ++ List.replicate (4 - n) 0) n ∧
        (d.drop n = List.replicate (4 - n) 0 → k'.key = example_key.key)) ∧
      (∀ p, example_key.key = .pk p → k'.key = .pk p) ∧
      k'.refcnt = example_key.refcnt ∧ k'.writer = example_key.writer ∧
      k'.uid = example_key.uid ∧ k'.pid = example_key.pid ∧ k'.desc = example_key.desc :=
  have hwf : key_item_wf [example_secret_algorithm, example_public_algorithm] 4 4
      example_key :=
    ⟨rfl, by decide,
     fun a h => by
       have ha : a = example_secret_algorithm := by
         simp only [example_key, Option.some.injEq] at h
         exact h.symm
       subst ha
       rfl,
     fun data size h => by
       simp only [example_key, key_union.secret.injEq] at h
       obtain ⟨hd, hs⟩ := h
       subst hd
       subst hs
       exact ⟨rfl, rfl, by decide⟩,
     fun params h => by
       simp only [example_key] at h
       cases h⟩
  ⟨hwf, rfl, rfl, storage_round_trip [example_secret_algorithm, example_public_algorithm] 4 4
    example_key example_key hwf⟩

/-! ## Sessions -/

/-- Whatever function of the session list chooses the descriptors, the
descriptor `d` it gives for the empty list comes back after the only session
was finalized: after init, final `d`, init, the descriptor `d` has been
finalized and `ncr_session_update` on it succeeds. -/
theorem session_desc_reissued (new_desc : List session_item_st → Except ncr_error Nat)
    (d : Nat) (hd : new_desc [] = .ok d) :
    d ∈ (session_run example_engine new_desc example_lists
      [.init example_secret_algorithm .NCR_OP_ENCRYPT 5 none, .final d none,
       .init example_secret_algorithm .NCR_OP_ENCRYPT 5 none]).2.2 ∧
    (ncr_session_update example_engine
      (session_run example_engine new_desc example_lists
        [.init example_secret_algorithm .NCR_OP_ENCRYPT 5 none, .final d none,
         .init example_secret_algorithm .NCR_OP_ENCRYPT 5 none]).1 d 3 none).1 = .ok 2 := by
  have hfind : key_item_find example_lists.key 5 = some example_key := rfl
  have hread : ncr_key_item_get_read example_lists.key 5 =
      (.ok { example_key with refcnt := 2 },
       { list := [{ example_key with refcnt := 2 }, example_private_key] }) := rfl
  have hinit : ncr_session_init example_engine new_desc example_lists
      example_secret_algorithm .NCR_OP_ENCRYPT 5 none =
      (.ok d,
       { data := example_lists.data,
         key := { list := [{ example_key with refcnt := 2 }, example_private_key] },
         sessions := { list := [{ algorithm := example_secret_algorithm,
                                  op := .NCR_OP_ENCRYPT, ctx := [], key := 5,
                                  refcnt := 1, desc := d }] } }) := by
    simp only [ncr_session_init, hfind, hread]
    have hs : example_lists.sessions.list = [] := rfl
    rw [hs, hd]
    rfl
  have hfinal : ncr_session_final example_engine
      { data := example_lists.data,
        key := { list := [{ example_key with refcnt := 2 }, example_private_key] },
        sessions := { list := [{ algorithm := example_secret_algorithm,
                                 op := .NCR_OP_ENCRYPT, ctx := [], key := 5,
                                 refcnt := 1, desc := d }] } } d none =
      (.ok [], example_lists) := by
    simp only [ncr_session_final, ncr_sessions_item_get, List.find?, beq_self_eq_true,
      session_output, List.filter, Bool.not_true]
    rfl
  have hupdate : (ncr_session_update example_engine
      { data := example_lists.data,
        key := { list := [{ example_key with refcnt := 2 }, example_private_key] },
        sessions := { list := [{ algorithm := example_secret_algorithm,
                                 op := .NCR_OP_ENCRYPT, ctx := [], key := 5,
                                 refcnt := 1, desc := d }] } } d 3 none).1 = .ok 2 := by
    simp only [ncr_session_update, ncr_sessions_item_get, List.find?, beq_self_eq_true,
      session_output]
    rfl
  simp only [session_run, session_step, hinit, hfinal, outcome_desc, Option.toList, id,
    List.append_nil, List.nil_append, List.mem_singleton, List.cons_append, hupdate, and_self]

end Ncr
